import Mathlib

/-!
# Verification of the FakahedaSEServerBackupManager core (FSSBM.py)

A shallow embedding of the backup/restore orchestration core of `FSSBM.py`:
the backup scheduler (`Scheduler.run`), the restore orchestrator
(`Util.BackupRestorer.run`), the transfer engine (`FTPManager.folder_size`,
`FTPManager.download_folder`, `FTPManager.upload_folder`,
`Util.get_folder_size`), the status endpoint (`Server.status`), the
dictionary wrapper (`Util.ObjectifiedDict`), and the startup backup
enumeration loop.  Timestamps are modelled as natural numbers of seconds
(the source's `datetime.fromtimestamp`/`timestamp` round-trip through a
`timedelta(minutes=interval)` is second arithmetic), directory trees as a
first-child/next-sibling inductive, and Python dictionaries as association
lists with Python's first-match lookup.
-/

namespace FSSBM

/-! ## Scheduler (`Scheduler.run`, lines 573-601; `_DEFAULT_CONFIG`, line 231-235)

Each iteration of the scheduler loop (one tick per second while not
stopped) reads `interval` (minutes) and `last_run` (a Unix timestamp) from
the configuration; if `last_run + interval` minutes is `<= now`, it sets
`config.last_run = now`, calls `Util.save_config` (persisting the config),
and only then starts the backup thread.  The two `datetime.datetime.now()`
reads inside one iteration are merged into the single tick time `now`. -/

/-- `MIN_AUTO_BACKUP_INTERVAL` from the source (line 226). -/
def MIN_AUTO_BACKUP_INTERVAL : Nat := 5

/-- `MAX_AUTO_BACKUP_INTERVAL` from the source (line 227). -/
def MAX_AUTO_BACKUP_INTERVAL : Nat := 60

/-- `_DEFAULT_CONFIG["last_run"]` from the source (line 235): `10 ** 9`. -/
def DEFAULT_LAST_RUN : Nat := 10 ^ 9

/-- The slice of the persisted configuration the scheduler loop reads:
`interval` in minutes and `last_run` as a Unix timestamp in seconds. -/
structure SchedConfig where
  interval : Nat
  lastRun : Nat
  deriving DecidableEq, Repr

/-- The scheduler slice of `_DEFAULT_CONFIG`:
`interval = MIN_AUTO_BACKUP_INTERVAL`, `last_run = 10 ** 9`. -/
def defaultSchedConfig : SchedConfig :=
  { interval := MIN_AUTO_BACKUP_INTERVAL, lastRun := DEFAULT_LAST_RUN }

/-- Observable actions of one scheduler loop iteration, in source order:
the `config.last_run = now` assignment, the `Util.save_config(config)`
persist, and the `thread.start()` launching the backup job. -/
inductive SchedAction where
  | setLastRun (t : Nat)
  | persist (t : Nat)
  | launch
  deriving DecidableEq, Repr

/-- `last_run + interval` minutes, the firing threshold recomputed every
tick (source line 590-592). -/
def schedNextRun (c : SchedConfig) : Nat :=
  c.lastRun + 60 * c.interval

/-- One armed iteration of `Scheduler.run` at wall-clock time `now`:
if `nextRun <= now`, set `last_run := now`, persist, and launch one job
(in that source order); otherwise do nothing. -/
def schedTick (c : SchedConfig) (now : Nat) : SchedConfig × List SchedAction :=
  if schedNextRun c ≤ now then
    ({ c with lastRun := now },
      [SchedAction.setLastRun now, SchedAction.persist now, SchedAction.launch])
  else
    (c, [])

/-- The armed scheduler loop over a sequence of tick times: the list of
per-tick action lists. -/
def schedRun (c : SchedConfig) : List Nat → List (List SchedAction)
  | [] => []
  | t :: ts =>
    let step := schedTick c t
    step.2 :: schedRun step.1 ts

/-! ## Restore orchestrator (`Util.BackupRestorer.run`, lines 254-273)

The restorer sets `self.action` through the stages `"__SERVER_STOP__"`,
`"__UPLOAD__"`, `"__SERVER_START__"`, `"__EXIT__"`; after `server.stop()`
it busy-polls `server.status.is_running` until it observes `False`, sleeps
5 seconds, uploads, calls `server.start()`, and busy-polls until it
observes `True`.  The run is modelled as a trace of observable events
driven by the two streams of `is_running` observations the busy-wait loops
consume; a loop that never sees its exit value diverges, modelled by
`Option.none`. -/

/-- The four values of the restorer's `action` field, in source spelling
`"__SERVER_STOP__"`, `"__UPLOAD__"`, `"__SERVER_START__"`, `"__EXIT__"`. -/
inductive Stage where
  | stopServer
  | upload
  | startServer
  | done
  deriving DecidableEq, Repr

/-- Observable events of `Util.BackupRestorer.run`. -/
inductive REvent where
  | setAction (s : Stage)
  | cmdStop
  | cmdStart
  | observe (running : Bool)
  | sleep (secs : Nat)
  | uploadFiles
  deriving DecidableEq, Repr

/-- The first busy-wait loop (`while True: if not server.status.is_running:
break`): consume observations while they are `true`; terminate on the
first `false`.  Returns the consumed observations as events, or `none`
when the stream is exhausted without a `false` (the loop never exits). -/
def waitUntilStopped : List Bool → Option (List REvent)
  | [] => Option.none
  | b :: rest =>
    if b then (waitUntilStopped rest).map (fun es => REvent.observe b :: es)
    else some [REvent.observe b]

/-- The second busy-wait loop (`while True: if server.status.is_running:
break`): consume observations while they are `false`; terminate on the
first `true`. -/
def waitUntilStarted : List Bool → Option (List REvent)
  | [] => Option.none
  | b :: rest =>
    if b then some [REvent.observe b]
    else (waitUntilStarted rest).map (fun es => REvent.observe b :: es)

/-- `Util.BackupRestorer.run` as an event trace, given the two observation
streams its busy-wait loops read.  Source order: set action stop-server,
`server.stop()`, wait for not running, `time.sleep(5)`, set action upload,
`Util.upload_backup`, set action start-server, `server.start()`, wait for
running, set action exit. -/
def restorerRun (stopObs startObs : List Bool) : Option (List REvent) :=
  match waitUntilStopped stopObs, waitUntilStarted startObs with
  | some es1, some es2 =>
    some ([REvent.setAction Stage.stopServer, REvent.cmdStop] ++ es1
      ++ [REvent.sleep 5, REvent.setAction Stage.upload, REvent.uploadFiles,
          REvent.setAction Stage.startServer, REvent.cmdStart] ++ es2
      ++ [REvent.setAction Stage.done])
  | _, _ => Option.none

/-- The sequence of stage transitions appearing in a trace. -/
def stagesOf (tr : List REvent) : List Stage :=
  tr.filterMap fun e =>
    match e with
    | REvent.setAction s => some s
    | _ => Option.none

/-! ## Directory trees and the transfer engine

A directory listing is modelled first-child/next-sibling: an `FSTree` is
the ordered contents of one directory; a `dir` entry carries its own
contents.  File entries carry their size in bytes and (for local trees)
whether the path is a symbolic link — `Util.get_folder_size` tests
`os.path.islink`.  Paths are walked exactly as `os.walk`/`FTPHost.walk`
renders them: the root is `"."` and each subdirectory appends `"/" ++
name`; names and paths are lists of characters so that Python's substring
operator `in` is literal infix matching on the rendered path. -/

inductive FSTree where
  | empty : FSTree
  | file (name : List Char) (size : Nat) (link : Bool) (rest : FSTree) : FSTree
  | dir (name : List Char) (contents : FSTree) (rest : FSTree) : FSTree
  deriving DecidableEq, Repr

/-- Python's substring test `needle in hay` on rendered paths. -/
def strContains (needle : List Char) : List Char → Bool
  | [] => needle.isEmpty
  | c :: rest => List.isPrefixOf needle (c :: rest) || strContains needle rest

/-- `any(val in item[0] for val in (blacklist or []))`: does any blacklist
entry occur as a substring of the walked directory path? -/
def blMatch (bl : List (List Char)) (path : List Char) : Bool :=
  bl.any fun val => strContains val path

/-- Sizes of the files listed directly in one directory (the walk's
`item[2]` together with `getsize`). -/
def levelFiles : FSTree → List Nat
  | FSTree.empty => []
  | FSTree.file _ sz _ rest => sz :: levelFiles rest
  | FSTree.dir _ _ rest => levelFiles rest

/-- File entries (size, is-symlink) listed directly in one directory. -/
def levelFileEntries : FSTree → List (Nat × Bool)
  | FSTree.empty => []
  | FSTree.file _ sz link rest => (sz, link) :: levelFileEntries rest
  | FSTree.dir _ _ rest => levelFileEntries rest

/-- The strict-descendant part of the walk: every subdirectory of the tree
paired with its contents, depth first, with paths rendered `p ++ "/" ++
name` as `os.path.join` does. -/
def walkFrom (p : List Char) : FSTree → List (List Char × FSTree)
  | FSTree.empty => []
  | FSTree.file _ _ _ rest => walkFrom p rest
  | FSTree.dir n c rest =>
    (p ++ '/' :: n, c) :: (walkFrom (p ++ '/' :: n) c ++ walkFrom p rest)

/-- The full top-down walk starting at directory path `p`: the directory
itself, then all descendants. -/
def walk (p : List Char) (t : FSTree) : List (List Char × FSTree) :=
  (p, t) :: walkFrom p t

/-- The path of the walk root: `self.walk(".")` starts at `"."`. -/
def dotPath : List Char := ['.']

/-- The accumulation loop of `FTPManager.folder_size`: for every walked
directory whose path matches no blacklist entry, add the sizes of its
files. -/
def sizeOfEntries (bl : List (List Char)) : List (List Char × FSTree) → Nat
  | [] => 0
  | e :: rest =>
    (if blMatch bl e.1 then 0 else (levelFiles e.2).sum) + sizeOfEntries bl rest

/-- `FTPManager.folder_size` (lines 502-511): walk the remote tree from
`"."` and sum file sizes of non-blacklisted directories. -/
def folder_size (t : FSTree) (bl : List (List Char)) : Nat :=
  sizeOfEntries bl (walk dotPath t)

/-- Every file under the tree, paired with its containing directory's
walked path (spec-side view of the same tree). -/
def filesUnder (p : List Char) : FSTree → List (List Char × Nat)
  | FSTree.empty => []
  | FSTree.file _ sz _ rest => (p, sz) :: filesUnder p rest
  | FSTree.dir n c rest => filesUnder (p ++ '/' :: n) c ++ filesUnder p rest

/-- Modelled from the spec's reading of `folderSize`: the sum of the sizes
of all files under the tree excluding every file whose containing
directory's walked path contains some blacklist substring. -/
def specFolderSize (t : FSTree) (bl : List (List Char)) : Nat :=
  (((filesUnder dotPath t).filter fun e => !blMatch bl e.1).map Prod.snd).sum

/-- The accumulation loop of `Util.get_folder_size`: over every walked
directory, add `getsize` of each file that is not a symbolic link. -/
def localSizeOfEntries : List (List Char × FSTree) → Nat
  | [] => 0
  | e :: rest =>
    ((levelFileEntries e.2).map fun x => if x.2 then 0 else x.1).sum
      + localSizeOfEntries rest

/-- `Util.get_folder_size` (lines 275-285): walk the local tree and sum
`getsize` over non-symlink files. -/
def get_folder_size (t : FSTree) : Nat :=
  localSizeOfEntries (walk dotPath t)

/-- Every file entry (size, is-symlink) under the tree (spec-side view). -/
def allFileEntries : FSTree → List (Nat × Bool)
  | FSTree.empty => []
  | FSTree.file _ sz link rest => (sz, link) :: allFileEntries rest
  | FSTree.dir _ c rest => allFileEntries c ++ allFileEntries rest

/-! ## Transfer progress (`FTPManager._IOStream`, lines 478-492;
`download_folder`, lines 513-533; `upload_folder`, lines 535-547)

`_IOStream(total)` sets `total_size` once at construction and
`cum_size = 0`; `add_size` adds the transfer callback's chunk length.
A transfer operation is modelled as the trace of stream events it
performs: `newStream total` for each `_IOStream(...)` assignment and
`add n` for the bytes a file transfer pushes through the callback. -/

inductive UpEvent where
  | newStream (total : Nat)
  | add (n : Nat)
  deriving DecidableEq, Repr

/-- Is the event an `_IOStream` construction? -/
def isNewStream : UpEvent → Bool
  | UpEvent.newStream _ => true
  | UpEvent.add _ => false

/-- The chunk lengths added by a trace, in order. -/
def addsOf : List UpEvent → List Nat
  | [] => []
  | UpEvent.newStream _ :: rest => addsOf rest
  | UpEvent.add n :: rest => n :: addsOf rest

/-- Successive values of a cumulative counter starting at `c` after each
addition. -/
def cumFrom (c : Nat) : List Nat → List Nat
  | [] => []
  | n :: ns => (c + n) :: cumFrom (c + n) ns

/-- The body of `FTPManager.upload_folder` after its `up_stream`
assignment: `os.listdir` order over the directory, uploading each file
(its bytes pass through the progress callback) and recursing into each
subdirectory — and the recursive call re-executes the
`self.up_stream = _IOStream(Util.get_folder_size(local_folder))`
assignment for the subtree. -/
def uploadBody : FSTree → List UpEvent
  | FSTree.empty => []
  | FSTree.file _ sz _ rest => UpEvent.add sz :: uploadBody rest
  | FSTree.dir _ c rest =>
    (UpEvent.newStream (get_folder_size c) :: uploadBody c) ++ uploadBody rest

/-- `FTPManager.upload_folder` as a stream-event trace: construct
`up_stream` with the local tree's size, then process the listing. -/
def upload_folder (t : FSTree) : List UpEvent :=
  UpEvent.newStream (get_folder_size t) :: uploadBody t

/-- The download loop after the `down_stream` assignment: for every
non-blacklisted walked directory, each file's bytes pass through the
progress callback. -/
def downloadBody (bl : List (List Char)) : List (List Char × FSTree) → List UpEvent
  | [] => []
  | e :: rest =>
    (if blMatch bl e.1 then [] else (levelFiles e.2).map UpEvent.add)
      ++ downloadBody bl rest

/-- `FTPManager.download_folder` as a stream-event trace: construct
`down_stream` with `folder_size(remote_folder, blacklist)`, then walk and
download. -/
def download_folder (t : FSTree) (bl : List (List Char)) : List UpEvent :=
  UpEvent.newStream (folder_size t bl) :: downloadBody bl (walk dotPath t)

/-- The number of subdirectories anywhere in the tree. -/
def dirCount : FSTree → Nat
  | FSTree.empty => 0
  | FSTree.file _ _ _ rest => dirCount rest
  | FSTree.dir _ c rest => 1 + dirCount c + dirCount rest

/-! ## Python values, dictionaries, `Server.status` (lines 442-451) and
`Util.ObjectifiedDict` (lines 242-247)

Parsed JSON documents are association lists with Python's first-match
lookup; `a | b` copies `a` and then inserts every binding of `b` in
order, overwriting on equal keys.  Scalar values carry Python truthiness;
compound JSON values play no role in the success-marker check or the
key-level merge, which treat values opaquely. -/

inductive PyVal where
  | pyNone
  | bool (b : Bool)
  | int (n : Int)
  | str (s : String)
  deriving DecidableEq, Repr

/-- Python truthiness of a scalar value. -/
def pyTruthy : PyVal → Bool
  | PyVal.pyNone => false
  | PyVal.bool b => b
  | PyVal.int n => decide (n ≠ 0)
  | PyVal.str s => !s.isEmpty

/-- First-match association-list lookup (Python dictionaries parsed from
JSON have unique keys). -/
def pyLookup (k : String) : List (String × α) → Option α
  | [] => Option.none
  | (k', v) :: rest => if k' = k then some v else pyLookup k rest

/-- `d[k] = v` on a dictionary rendered as an association list: overwrite
the existing binding in place or append a new one. -/
def pyDictSet (k : String) (v : α) : List (String × α) → List (String × α)
  | [] => [(k, v)]
  | (k', v') :: rest =>
    if k' = k then (k, v) :: rest else (k', v') :: pyDictSet k v rest

/-- Python's `a | b` on dictionaries: start from `a` and insert every
binding of `b` in order. -/
def pyDictUnion (a b : List (String × α)) : List (String × α) :=
  b.foldl (fun acc kv => pyDictSet kv.1 kv.2 acc) a

/-- The keys of a dictionary, in order. -/
def pyKeys (d : List (String × α)) : List String :=
  d.map Prod.fst

/-- A parsed JSON document. -/
abbrev PyDict := List (String × PyVal)

/-- `dict.get(key)`: the stored value, or `None` when absent. -/
def pyGetDefault (d : PyDict) (k : String) : PyVal :=
  (pyLookup k d).getD PyVal.pyNone

/-- `Util.ObjectifiedDict.__getattr__` (lines 243-244): `self.get(item)`. -/
def objectifiedGetattr (d : PyDict) (k : String) : PyVal :=
  pyGetDefault d k

/-- `Server.status` (lines 446-451): fetch the lifecycle status document,
raise `InvalidResponse` when `not status_.get("result")`, otherwise merge
the telemetry feed document over it (`status_ | self._json_feed`).
`Option.none` models the raised exception. -/
def serverStatus (statusDoc feedDoc : PyDict) : Option PyDict :=
  if pyTruthy (pyGetDefault statusDoc "result") then
    some (pyDictUnion statusDoc feedDoc)
  else
    Option.none

/-! ## Startup backup enumeration (lines 1429-1439; `Backup.__init__`,
lines 553-560)

For each subdirectory of the backup root the startup loop tries
`Backup(path_)` — which requires a first subdirectory inside it
(`next(os.walk(...))[1][0]`) and a directory name parseable as a float
timestamp (`float(self.path)`) — and then `Image.open` on its thumbnail;
any exception logs one error line and `continue`s. -/

/-- What can go wrong for one candidate backup directory: whether its name
parses as a numeric timestamp, whether it contains a first subdirectory,
and whether its thumbnail image loads. -/
structure BackupDir where
  nameNumeric : Bool
  hasSubdir : Bool
  thumbLoadable : Bool
  deriving DecidableEq, Repr

/-- Does `Backup(path_)` followed by `Image.open(backup_.thumbnail)`
succeed for this candidate? -/
def backupLoadable (d : BackupDir) : Bool :=
  d.hasSubdir && d.nameNumeric && d.thumbLoadable

/-- The startup enumeration loop: the in-memory `BACKUPS` list in walk
order, and the number of load-error log lines.  Every candidate is
processed; a failure logs and continues, never aborting the loop. -/
def loadBackups : List BackupDir → List BackupDir × Nat
  | [] => ([], 0)
  | d :: rest =>
    let r := loadBackups rest
    if backupLoadable d then (d :: r.1, r.2) else (r.1, r.2 + 1)

/-! ## Proofs -/

lemma schedTick_quiet {c : SchedConfig} {now : Nat} (h : now < schedNextRun c) :
    schedTick c now = (c, []) := by
  simp [schedTick, Nat.not_le.mpr h]

lemma schedTick_fire {c : SchedConfig} {now : Nat} (h : schedNextRun c ≤ now) :
    schedTick c now =
      ({ c with lastRun := now },
        [SchedAction.setLastRun now, SchedAction.persist now, SchedAction.launch]) := by
  simp [schedTick, h]

lemma schedRun_quiet (c : SchedConfig) (pre : List Nat)
    (hpre : ∀ t ∈ pre, t < schedNextRun c) (rest : List Nat) :
    schedRun c (pre ++ rest) =
      List.replicate pre.length [] ++ schedRun c rest := by
  induction pre with
  | nil => simp
  | cons t ts ih =>
    have ht : t < schedNextRun c := hpre t (by simp)
    have hts : ∀ u ∈ ts, u < schedNextRun c := fun u hu => hpre u (by simp [hu])
    simp [schedRun, schedTick_quiet ht, ih hts, List.replicate_succ]

/-- C1: for every interval `i` with `5 <= i <= 60` and a scheduler armed
at time `t0` with `last_run = t0`, the control loop launches no backup job
at any tick before `t0 + i` minutes (those ticks produce no actions), and
at the first tick `tf` with `tf >= last_run + i` minutes it produces
exactly the actions `set last_run := tf`, `persist`, `launch` — one job,
with `last_run = now` persisted before the launch. -/
theorem scheduler_interval_fire (i t0 : Nat)
    (h5 : MIN_AUTO_BACKUP_INTERVAL ≤ i) (h60 : i ≤ MAX_AUTO_BACKUP_INTERVAL)
    (pre : List Nat) (hpre : ∀ t ∈ pre, t < t0 + 60 * i)
    (tf : Nat) (hf : t0 + 60 * i ≤ tf) :
    schedRun { interval := i, lastRun := t0 } (pre ++ [tf]) =
      List.replicate pre.length [] ++
        [[SchedAction.setLastRun tf, SchedAction.persist tf, SchedAction.launch]] := by
  have hnext : schedNextRun { interval := i, lastRun := t0 } = t0 + 60 * i := rfl
  rw [schedRun_quiet _ pre (by simpa [hnext] using hpre)]
  have hfire := @schedTick_fire { interval := i, lastRun := t0 } tf
    (by simpa [hnext] using hf)
  simp [schedRun, hfire]

/-- Witness for `scheduler_interval_fire`: interval 5 minutes, armed at
`t0 = 100`, quiet ticks at 100, 200 and 399 seconds, firing tick at 400. -/
theorem scheduler_interval_fire_witness :
    (MIN_AUTO_BACKUP_INTERVAL ≤ 5 ∧ 5 ≤ MAX_AUTO_BACKUP_INTERVAL ∧
      (∀ t ∈ [100, 200, 399], t < 100 + 60 * 5) ∧ 100 + 60 * 5 ≤ 400) ∧
    schedRun { interval := 5, lastRun := 100 } ([100, 200, 399] ++ [400]) =
      List.replicate 3 [] ++
        [[SchedAction.setLastRun 400, SchedAction.persist 400, SchedAction.launch]] :=
  ⟨⟨by decide, by decide, by decide, by decide⟩,
    scheduler_interval_fire 5 100 (by decide) (by decide)
      [100, 200, 399] (by decide) 400 (by decide)⟩

/-- C4, counterexample: the default configuration's `last_run` is
`10 ** 9` (September 2001), a timestamp in the past, not a far-future
sentinel.  At a fresh install whose first scheduler tick happens at Unix
time `1700000000` (November 2023) with the default interval
`5 ∈ [5, 60]` minutes, the very first tick does launch a backup job,
contradicting the claim that no interval in `[5, 60]` fires immediately. -/
theorem default_last_run_counterexample :
    MIN_AUTO_BACKUP_INTERVAL ≤ defaultSchedConfig.interval ∧
    defaultSchedConfig.interval ≤ MAX_AUTO_BACKUP_INTERVAL ∧
    DEFAULT_LAST_RUN < 1700000000 ∧
    SchedAction.launch ∈ (schedTick defaultSchedConfig 1700000000).2 := by
  decide

/-- C4, amended: the default `last_run` is the constant `10 ** 9`, a
moment in the past, so on a fresh install (last_run at its default,
auto-backup armed) the scheduler immediately launches a backup at its
first tick for every interval `i ∈ [5, 60]` minutes, at any tick time
`now ≥ 10 ** 9 + 60 * i` (i.e. at any time after September 2001). -/
theorem default_last_run_immediate_fire (i now : Nat)
    (h5 : MIN_AUTO_BACKUP_INTERVAL ≤ i) (h60 : i ≤ MAX_AUTO_BACKUP_INTERVAL)
    (hnow : DEFAULT_LAST_RUN + 60 * i ≤ now) :
    schedTick { interval := i, lastRun := DEFAULT_LAST_RUN } now =
      ({ interval := i, lastRun := now },
        [SchedAction.setLastRun now, SchedAction.persist now, SchedAction.launch]) :=
  schedTick_fire hnow

/-- Witness for `default_last_run_immediate_fire`: interval 5 minutes,
tick at Unix time `1700000000`. -/
theorem default_last_run_immediate_fire_witness :
    (MIN_AUTO_BACKUP_INTERVAL ≤ 5 ∧ 5 ≤ MAX_AUTO_BACKUP_INTERVAL ∧
      DEFAULT_LAST_RUN + 60 * 5 ≤ 1700000000) ∧
    schedTick { interval := 5, lastRun := DEFAULT_LAST_RUN } 1700000000 =
      ({ interval := 5, lastRun := 1700000000 },
        [SchedAction.setLastRun 1700000000, SchedAction.persist 1700000000,
          SchedAction.launch]) :=
  ⟨⟨by decide, by decide, by decide⟩,
    default_last_run_immediate_fire 5 1700000000 (by decide) (by decide) (by decide)⟩

lemma waitUntilStopped_shape {obs : List Bool} {es : List REvent}
    (h : waitUntilStopped obs = some es) :
    ∃ n, es = List.replicate n (REvent.observe true) ++ [REvent.observe false] := by
  induction obs generalizing es with
  | nil => simp [waitUntilStopped] at h
  | cons b rest ih =>
    cases b with
    | false =>
      simp [waitUntilStopped] at h
      exact ⟨0, by simp [← h]⟩
    | true =>
      simp [waitUntilStopped] at h
      obtain ⟨a, ha, rfl⟩ := h
      obtain ⟨n, rfl⟩ := ih ha
      exact ⟨n + 1, by simp [List.replicate_succ]⟩

lemma waitUntilStarted_shape {obs : List Bool} {es : List REvent}
    (h : waitUntilStarted obs = some es) :
    ∃ n, es = List.replicate n (REvent.observe false) ++ [REvent.observe true] := by
  induction obs generalizing es with
  | nil => simp [waitUntilStarted] at h
  | cons b rest ih =>
    cases b with
    | true =>
      simp [waitUntilStarted] at h
      exact ⟨0, by simp [← h]⟩
    | false =>
      simp [waitUntilStarted] at h
      obtain ⟨a, ha, rfl⟩ := h
      obtain ⟨n, rfl⟩ := ih ha
      exact ⟨n + 1, by simp [List.replicate_succ]⟩

lemma stagesOf_append (a b : List REvent) :
    stagesOf (a ++ b) = stagesOf a ++ stagesOf b := by
  simp [stagesOf]

lemma stagesOf_replicate_observe (k : Nat) (b : Bool) :
    stagesOf (List.replicate k (REvent.observe b)) = [] := by
  induction k with
  | zero => rfl
  | succ k ih => simpa [stagesOf, List.replicate_succ] using ih

/-- C2: whenever a run of the restore orchestrator terminates (both
busy-wait loops see their exit observation), its trace passes through the
stages stop-server, upload, start-server, done in exactly that order; the
upload is immediately preceded by a running-flag observation of `false`
followed by the fixed `time.sleep(5)` settle delay, and every running-flag
observation before that point read `true` — so the upload stage never
begins while the last-observed running flag is `true`. -/
theorem restore_sequencing (stopObs startObs : List Bool) (tr : List REvent)
    (h : restorerRun stopObs startObs = some tr) :
    stagesOf tr = [Stage.stopServer, Stage.upload, Stage.startServer, Stage.done] ∧
    ∃ pre post,
      tr = pre ++ REvent.observe false :: REvent.sleep 5 ::
        REvent.setAction Stage.upload :: REvent.uploadFiles :: post ∧
      stagesOf pre = [Stage.stopServer] ∧
      ∀ b, REvent.observe b ∈ pre → b = true := by
  unfold restorerRun at h
  cases h1 : waitUntilStopped stopObs with
  | none => rw [h1] at h; simp at h
  | some es1 =>
    cases h2 : waitUntilStarted startObs with
    | none => rw [h1, h2] at h; simp at h
    | some es2 =>
      rw [h1, h2] at h
      simp only [Option.some.injEq] at h
      obtain ⟨n, rfl⟩ := waitUntilStopped_shape h1
      obtain ⟨m, rfl⟩ := waitUntilStarted_shape h2
      subst h
      constructor
      · simp [stagesOf_append, stagesOf_replicate_observe, stagesOf]
      · refine ⟨[REvent.setAction Stage.stopServer, REvent.cmdStop] ++
          List.replicate n (REvent.observe true),
          REvent.setAction Stage.startServer :: REvent.cmdStart ::
            (List.replicate m (REvent.observe false) ++
              [REvent.observe true, REvent.setAction Stage.done]), ?_, ?_, ?_⟩
        · simp
        · simp [stagesOf_append, stagesOf_replicate_observe, stagesOf]
        · intro b hb
          simp [List.mem_replicate] at hb
          exact hb.2

/-- Witness for `restore_sequencing`: the server reports running once and
stopped on the second poll, then running on the first post-start poll. -/
theorem restore_sequencing_witness :
    restorerRun [true, false] [true] =
      some [REvent.setAction Stage.stopServer, REvent.cmdStop, REvent.observe true,
        REvent.observe false, REvent.sleep 5, REvent.setAction Stage.upload,
        REvent.uploadFiles, REvent.setAction Stage.startServer, REvent.cmdStart,
        REvent.observe true, REvent.setAction Stage.done] ∧
    (stagesOf [REvent.setAction Stage.stopServer, REvent.cmdStop, REvent.observe true,
        REvent.observe false, REvent.sleep 5, REvent.setAction Stage.upload,
        REvent.uploadFiles, REvent.setAction Stage.startServer, REvent.cmdStart,
        REvent.observe true, REvent.setAction Stage.done] =
          [Stage.stopServer, Stage.upload, Stage.startServer, Stage.done] ∧
      ∃ pre post,
        [REvent.setAction Stage.stopServer, REvent.cmdStop, REvent.observe true,
          REvent.observe false, REvent.sleep 5, REvent.setAction Stage.upload,
          REvent.uploadFiles, REvent.setAction Stage.startServer, REvent.cmdStart,
          REvent.observe true, REvent.setAction Stage.done] =
            pre ++ REvent.observe false :: REvent.sleep 5 ::
              REvent.setAction Stage.upload :: REvent.uploadFiles :: post ∧
        stagesOf pre = [Stage.stopServer] ∧
        ∀ b, REvent.observe b ∈ pre → b = true) :=
  ⟨by decide, restore_sequencing [true, false] [true] _ (by decide)⟩

lemma sizeOfEntries_append (bl : List (List Char)) (a b : List (List Char × FSTree)) :
    sizeOfEntries bl (a ++ b) = sizeOfEntries bl a + sizeOfEntries bl b := by
  induction a with
  | nil => simp [sizeOfEntries]
  | cons e rest ih => simp [sizeOfEntries, ih]; omega

lemma sizeOfEntries_walk (bl : List (List Char)) (t : FSTree) : ∀ p : List Char,
    sizeOfEntries bl (walk p t) =
      (((filesUnder p t).filter fun e => !blMatch bl e.1).map Prod.snd).sum := by
  induction t with
  | empty => intro p; simp [walk, walkFrom, sizeOfEntries, levelFiles, filesUnder]
  | file n sz link rest ih =>
    intro p
    have ihp := ih p
    simp only [walk, walkFrom, sizeOfEntries, levelFiles, List.sum_cons, filesUnder] at *
    by_cases hm : blMatch bl p <;> simp [hm] at ihp ⊢ <;> omega
  | dir n c rest ihc ihr =>
    intro p
    have ihc' := ihc (p ++ '/' :: n)
    have ihr' := ihr p
    simp only [walk, walkFrom, sizeOfEntries, sizeOfEntries_append, levelFiles,
      filesUnder, List.filter_append, List.map_append, List.sum_append] at *
    omega

/-- C3: `FTPManager.folder_size` on a directory tree and blacklist equals
the sum of the sizes of all files under the tree excluding every file
whose containing directory's walked path contains some blacklist entry as
a substring; and, being a pure function of the tree, re-running it on an
unchanged tree returns the same value. -/
theorem folder_size_spec (t : FSTree) (bl : List (List Char)) :
    folder_size t bl = specFolderSize t bl ∧
    folder_size t bl = folder_size t bl :=
  ⟨sizeOfEntries_walk bl t dotPath, rfl⟩

lemma localSizeOfEntries_append (a b : List (List Char × FSTree)) :
    localSizeOfEntries (a ++ b) = localSizeOfEntries a + localSizeOfEntries b := by
  induction a with
  | nil => simp [localSizeOfEntries]
  | cons e rest ih => simp [localSizeOfEntries, ih]; omega

lemma localSizeOfEntries_walk (t : FSTree) : ∀ p : List Char,
    localSizeOfEntries (walk p t) =
      (((allFileEntries t).filter fun x => !x.2).map Prod.fst).sum := by
  induction t with
  | empty => intro p; simp [walk, walkFrom, localSizeOfEntries, levelFileEntries, allFileEntries]
  | file n sz link rest ih =>
    intro p
    have ihp := ih p
    simp only [walk, walkFrom, localSizeOfEntries, levelFileEntries, List.map_cons,
      List.sum_cons, allFileEntries] at *
    cases link <;> simp at ihp ⊢ <;> omega
  | dir n c rest ihc ihr =>
    intro p
    have ihc' := ihc (p ++ '/' :: n)
    have ihr' := ihr p
    simp only [walk, walkFrom, localSizeOfEntries, localSizeOfEntries_append,
      levelFileEntries, allFileEntries, List.filter_append, List.map_append,
      List.sum_append] at *
    omega

/-- C9: `Util.get_folder_size` sums the sizes of exactly the files under
the tree that are not symbolic links — symlinked files are excluded from
the reported size (used for upload progress totals and each backup's
displayed size). -/
theorem get_folder_size_skips_symlinks (t : FSTree) :
    get_folder_size t = (((allFileEntries t).filter fun x => !x.2).map Prod.fst).sum :=
  localSizeOfEntries_walk t dotPath

/-- C7, counterexample: `upload_folder` on a local tree holding one
subdirectory `a` (with one 5-byte file) next to one 3-byte file creates a
second progress object mid-operation — the recursive call for `a`
re-assigns `self.up_stream = _IOStream(...)` with the subtree's size — so
during a single upload there are two progress objects, `total_size` is
recomputed rather than computed once up front, and the trailing top-level
transfer is accounted against the subtree's stream (whose total is 5
while its cumulative size reaches 8). -/
theorem upload_progress_counterexample :
    upload_folder (FSTree.dir ['a'] (FSTree.file ['f'] 5 false FSTree.empty)
        (FSTree.file ['g'] 3 false FSTree.empty)) =
      [UpEvent.newStream 8, UpEvent.newStream 5, UpEvent.add 5, UpEvent.add 3] ∧
    1 < List.countP isNewStream
      (upload_folder (FSTree.dir ['a'] (FSTree.file ['f'] 5 false FSTree.empty)
        (FSTree.file ['g'] 3 false FSTree.empty))) := by
  decide

lemma countP_newStream_map_add (ns : List Nat) :
    List.countP isNewStream (ns.map UpEvent.add) = 0 := by
  induction ns with
  | nil => rfl
  | cons n ns ih => simp [List.countP_cons, isNewStream, ih]

lemma countP_newStream_downloadBody (bl : List (List Char))
    (es : List (List Char × FSTree)) :
    List.countP isNewStream (downloadBody bl es) = 0 := by
  induction es with
  | nil => rfl
  | cons e rest ih =>
    by_cases hm : blMatch bl e.1 <;>
      simp [downloadBody, hm, List.countP_append, countP_newStream_map_add, ih, isNewStream]

lemma countP_newStream_uploadBody (t : FSTree) :
    List.countP isNewStream (uploadBody t) = dirCount t := by
  induction t with
  | empty => rfl
  | file n sz link rest ih => simp [uploadBody, dirCount, List.countP_cons, isNewStream, ih]
  | dir n c rest ihc ihr =>
    simp [uploadBody, dirCount, List.countP_append, List.countP_cons, isNewStream, ihc, ihr]
    omega

lemma chain'_cumFrom (ns : List Nat) : ∀ c : Nat,
    List.Chain' (· ≤ ·) (c :: cumFrom c ns) := by
  induction ns with
  | nil => intro c; simp [cumFrom]
  | cons n ns ih =>
    intro c
    rw [cumFrom]
    exact List.chain'_cons.mpr ⟨Nat.le_add_right c n, ih (c + n)⟩

/-- C7, amended: during a single `download_folder` operation there is
exactly one progress object, constructed first with `total_size` computed
up front by `folder_size`, and its cumulative size is monotonically
non-decreasing; during a single `upload_folder` operation, however, one
progress object is created for the root and one more for every
subdirectory entered by the recursion (`1 + dirCount` in total), each with
its total recomputed for its own subtree — so the single-object,
computed-once property holds for the upload direction only on trees with
no subdirectories. -/
theorem transfer_progress_amended (t : FSTree) (bl : List (List Char)) :
    List.countP isNewStream (download_folder t bl) = 1 ∧
    (download_folder t bl).head? = some (UpEvent.newStream (folder_size t bl)) ∧
    List.Chain' (· ≤ ·) (0 :: cumFrom 0 (addsOf (download_folder t bl))) ∧
    List.countP isNewStream (upload_folder t) = 1 + dirCount t := by
  refine ⟨?_, rfl, chain'_cumFrom _ 0, ?_⟩
  · simp [download_folder, List.countP_cons, isNewStream, countP_newStream_downloadBody]
  · simp [upload_folder, List.countP_cons, isNewStream, countP_newStream_uploadBody]
    omega

/-- C8: startup enumeration of a backup root produces exactly the loadable
candidates (numeric-timestamp name, a first subdirectory present, a
loadable thumbnail) as the in-memory list, emits one load-error log line
per unloadable candidate, and — being a total fold over the candidates —
processes every candidate without aborting. -/
theorem backup_enumeration (dirs : List BackupDir) :
    (loadBackups dirs).1 = dirs.filter backupLoadable ∧
    (loadBackups dirs).1.length = List.countP backupLoadable dirs ∧
    (loadBackups dirs).2 = List.countP (fun d => !backupLoadable d) dirs := by
  induction dirs with
  | nil => simp [loadBackups]
  | cons d rest ih =>
    obtain ⟨ih1, ih2, ih3⟩ := ih
    cases hd : backupLoadable d <;>
      simp [loadBackups, hd, List.countP_cons, ih1, ih2, ih3,
        List.countP_eq_length_filter]

/-- C5: `Server.status` raises `InvalidResponse` exactly when the
lifecycle response document lacks a recognizable success indicator — a
`"result"` field that is present and truthy; when the marker is present
and truthy it returns the merged snapshot without raising. -/
theorem status_invalid_response (s f : PyDict) :
    ((serverStatus s f).isNone ↔
      ¬ ∃ v, pyLookup "result" s = some v ∧ pyTruthy v = true) ∧
    (∀ v, pyLookup "result" s = some v → pyTruthy v = true →
      serverStatus s f = some (pyDictUnion s f)) := by
  constructor
  · cases h : pyLookup "result" s with
    | none => simp [serverStatus, pyGetDefault, h, pyTruthy]
    | some v => cases hv : pyTruthy v <;> simp [serverStatus, pyGetDefault, h, hv]
  · intro v hv htv
    simp [serverStatus, pyGetDefault, hv, htv]

/-- Witness for `status_invalid_response`: a lifecycle document whose
`"result"` field is `True` yields a snapshot. -/
theorem status_invalid_response_witness :
    (pyLookup "result" ([("result", PyVal.bool true)] : PyDict) =
        some (PyVal.bool true) ∧
      pyTruthy (PyVal.bool true) = true) ∧
    serverStatus [("result", PyVal.bool true)] ([] : PyDict) =
      some (pyDictUnion [("result", PyVal.bool true)] []) :=
  ⟨⟨by decide, rfl⟩,
    (status_invalid_response [("result", PyVal.bool true)] []).2 (PyVal.bool true)
      (by decide) rfl⟩

lemma pyLookup_set_self {α : Type} (k : String) (v : α) (d : List (String × α)) :
    pyLookup k (pyDictSet k v d) = some v := by
  induction d with
  | nil => simp [pyDictSet, pyLookup]
  | cons kv rest ih =>
    obtain ⟨k', v'⟩ := kv
    by_cases hk : k' = k
    · subst hk; simp [pyDictSet, pyLookup]
    · simp [pyDictSet, pyLookup, hk, ih]

lemma pyLookup_set_ne {α : Type} {k k' : String} (hne : k' ≠ k) (v : α)
    (d : List (String × α)) :
    pyLookup k (pyDictSet k' v d) = pyLookup k d := by
  have hkk : ¬k = k' := fun hc => hne hc.symm
  induction d with
  | nil => simp [pyDictSet, pyLookup, hne]
  | cons kv rest ih =>
    obtain ⟨k'', v''⟩ := kv
    by_cases hk : k'' = k'
    · subst hk; simp [pyDictSet, pyLookup, hne]
    · by_cases hk2 : k'' = k <;> simp [pyDictSet, pyLookup, hk, hk2, ih, hkk]

lemma pyKeys_cons {α : Type} (kv : String × α) (rest : List (String × α)) :
    pyKeys (kv :: rest) = kv.1 :: pyKeys rest := rfl

lemma pyLookup_keys_none {α : Type} {k : String} {d : List (String × α)}
    (h : k ∉ pyKeys d) :
    pyLookup k d = Option.none := by
  induction d with
  | nil => rfl
  | cons kv rest ih =>
    obtain ⟨k', v'⟩ := kv
    rw [pyKeys_cons] at h
    have h1 : ¬k' = k := fun hc => h (hc ▸ List.mem_cons_self _ _)
    have h2 : k ∉ pyKeys rest := fun hc => h (List.mem_cons_of_mem _ hc)
    simp [pyLookup, h1, ih h2]

lemma pyLookup_union_absent {α : Type} (k : String) :
    ∀ (b a : List (String × α)), pyLookup k b = Option.none →
      pyLookup k (pyDictUnion a b) = pyLookup k a := by
  intro b
  induction b with
  | nil => intro a _; rfl
  | cons kv rest ih =>
    intro a h
    obtain ⟨k1, v1⟩ := kv
    rw [pyLookup] at h
    by_cases hk : k1 = k
    · rw [if_pos hk] at h; exact absurd h (by simp)
    · rw [if_neg hk] at h
      show pyLookup k (pyDictUnion (pyDictSet k1 v1 a) rest) = pyLookup k a
      rw [ih _ h, pyLookup_set_ne hk]

lemma pyLookup_union_found {α : Type} (k : String) :
    ∀ (b a : List (String × α)) (v : α), (pyKeys b).Nodup →
      pyLookup k b = some v → pyLookup k (pyDictUnion a b) = some v := by
  intro b
  induction b with
  | nil => intro a v _ h; simp [pyLookup] at h
  | cons kv rest ih =>
    intro a v hnd h
    obtain ⟨k1, v1⟩ := kv
    rw [pyKeys_cons] at hnd
    have hnd' := List.nodup_cons.mp hnd
    rw [pyLookup] at h
    show pyLookup k (pyDictUnion (pyDictSet k1 v1 a) rest) = some v
    by_cases hk : k1 = k
    · rw [if_pos hk] at h
      subst hk
      rw [pyLookup_union_absent k1 rest _ (pyLookup_keys_none hnd'.1),
        pyLookup_set_self]
      exact h
    · rw [if_neg hk] at h
      exact ih _ v hnd'.2 h

/-- C6: the snapshot `Server.status` returns is `status_ | json_feed`;
its keys are the union of the two documents' keys, and on every key
collision the telemetry feed's value wins (the feed is merged last). -/
theorem status_merge_union (s f snap : PyDict) (hnd : (pyKeys f).Nodup)
    (h : serverStatus s f = some snap) :
    (∀ k, (pyLookup k snap).isSome ↔
      ((pyLookup k s).isSome ∨ (pyLookup k f).isSome)) ∧
    (∀ k v, pyLookup k f = some v → pyLookup k snap = some v) := by
  have hsnap : snap = pyDictUnion s f := by
    unfold serverStatus at h
    split at h
    · injection h with h'; exact h'.symm
    · simp at h
  subst hsnap
  constructor
  · intro k
    cases hf : pyLookup k f with
    | none => rw [pyLookup_union_absent k f s hf]; simp [hf]
    | some v => rw [pyLookup_union_found k f s v hnd hf]; simp [hf]
  · intro k v hv
    exact pyLookup_union_found k f s v hnd hv

/-- Witness for `status_merge_union`: lifecycle document with keys
`result`, `x`; feed document with keys `x`, `y`; the snapshot holds all
three keys and the feed's value of `x`. -/
theorem status_merge_union_witness :
    ((pyKeys ([("x", PyVal.int 2), ("y", PyVal.int 3)] : PyDict)).Nodup ∧
      serverStatus [("result", PyVal.bool true), ("x", PyVal.int 1)]
          [("x", PyVal.int 2), ("y", PyVal.int 3)] =
        some [("result", PyVal.bool true), ("x", PyVal.int 2), ("y", PyVal.int 3)]) ∧
    ((∀ k, (pyLookup k ([("result", PyVal.bool true), ("x", PyVal.int 2),
          ("y", PyVal.int 3)] : PyDict)).isSome ↔
        ((pyLookup k ([("result", PyVal.bool true), ("x", PyVal.int 1)] : PyDict)).isSome ∨
          (pyLookup k ([("x", PyVal.int 2), ("y", PyVal.int 3)] : PyDict)).isSome)) ∧
      (∀ k v, pyLookup k ([("x", PyVal.int 2), ("y", PyVal.int 3)] : PyDict) = some v →
        pyLookup k ([("result", PyVal.bool true), ("x", PyVal.int 2),
          ("y", PyVal.int 3)] : PyDict) = some v)) :=
  ⟨⟨by decide, by decide⟩, status_merge_union _ _ _ (by decide) (by decide)⟩

/-- C10: attribute access on `Util.ObjectifiedDict` is total — for every
document and attribute name it returns the stored value when the key is
present and `None` when it is absent, never raising. -/
theorem objectified_getattr_total (d : PyDict) (k : String) :
    (pyLookup k d = Option.none ∧ objectifiedGetattr d k = PyVal.pyNone) ∨
    (∃ v, pyLookup k d = some v ∧ objectifiedGetattr d k = v) := by
  cases h : pyLookup k d with
  | none => exact Or.inl ⟨rfl, by simp [objectifiedGetattr, pyGetDefault, h]⟩
  | some v => exact Or.inr ⟨v, rfl, by simp [objectifiedGetattr, pyGetDefault, h]⟩

end FSSBM
